import Mathlib

/-
Shallow embedding of the schema-aware relevance resolver and query validator
of src/server.py: the tokenizer and stop-word filter, the variation index,
the fuzzy matching loop, the foreign-key closure (traverse_relationships),
find_relevant_tables, validate_query_columns and the relevance check of the
HTTP endpoint.  External libraries (the fuzzy scorer and the
singular/plural engine) are abstracted as parameters of the model.
-/

namespace OracleQwen

/-- Model of Python str.lower restricted to ASCII letters; table names,
column names, prompts and queries are lowercased with it before comparison. -/
def lowerChar (c : Char) : Char :=
  if c = 'A' then 'a' else if c = 'B' then 'b' else if c = 'C' then 'c'
  else if c = 'D' then 'd' else if c = 'E' then 'e' else if c = 'F' then 'f'
  else if c = 'G' then 'g' else if c = 'H' then 'h' else if c = 'I' then 'i'
  else if c = 'J' then 'j' else if c = 'K' then 'k' else if c = 'L' then 'l'
  else if c = 'M' then 'm' else if c = 'N' then 'n' else if c = 'O' then 'o'
  else if c = 'P' then 'p' else if c = 'Q' then 'q' else if c = 'R' then 'r'
  else if c = 'S' then 's' else if c = 'T' then 't' else if c = 'U' then 'u'
  else if c = 'V' then 'v' else if c = 'W' then 'w' else if c = 'X' then 'x'
  else if c = 'Y' then 'y' else if c = 'Z' then 'z' else c

/-- Model of Python str.lower on whole strings. -/
def strLower (s : String) : String := ⟨s.data.map lowerChar⟩

/-- A word character of the regular expressions in src/server.py: letters,
digits and the underscore. -/
def isWordChar (c : Char) : Bool := c.isAlphanum || c = '_'

/-- An ASCII whitespace character as matched by the regular expressions. -/
def isSpaceChar (c : Char) : Bool :=
  c = ' ' || c = '\t' || c = '\n' || c = '\r' || c = Char.ofNat 11 || c = Char.ofNat 12

/-- Scanner computing the maximal word-character runs of a character list,
the model of extracting all word runs from the prompt
(src/server.py line 116); the second argument accumulates the current run
in reverse. -/
def tokenizeAux : List Char → List Char → List String
  | [], cur => if cur.isEmpty then [] else [⟨cur.reverse⟩]
  | c :: cs, cur =>
    if isWordChar c then tokenizeAux cs (c :: cur)
    else if cur.isEmpty then tokenizeAux cs []
    else ⟨cur.reverse⟩ :: tokenizeAux cs []

/-- All maximal word runs of a string, in order. -/
def tokenizeWords (s : String) : List String := tokenizeAux s.data []

/-- The stop-word set of src/server.py lines 45-48. -/
def STOP_WORDS : List String :=
  ["is", "as", "list", "all", "get", "retrieve", "find", "to", "for",
   "on", "by", "in", "and", "of", "the", "from", "assigned"]

/-- A table of the schema document: its column names in order and its
foreign keys as a mapping from local column to referenced table, in
insertion order.  Missing JSON keys are modelled by empty lists, matching
the .get defaults of the source. -/
structure Table where
  columns : List String
  foreign_keys : List (String × String)
deriving DecidableEq

/-- The schema: a Python dict from table name to table, modelled as an
association list in insertion order with unique keys. -/
abbrev Schema := List (String × Table)

/-- Python dict lookup over the schema (first matching key). -/
def lookupTable : Schema → String → Option Table
  | [], _ => none
  | e :: rest, t => if e.1 = t then some e.2 else lookupTable rest t

/-- Lookahead alternative one of the column pattern: optional whitespace,
then a comma or a closing parenthesis. -/
def lookComma : List Char → Bool
  | [] => false
  | c :: cs => if c = ',' || c = ')' then true else if isSpaceChar c then lookComma cs else false

/-- Lookahead alternative two of the column pattern: whitespace, the keyword
FROM case-insensitively, then whitespace. -/
def lookFrom (s : List Char) : Bool :=
  match s with
  | [] => false
  | c :: _ =>
    isSpaceChar c &&
      (match s.dropWhile isSpaceChar with
       | f :: r :: o :: m :: rest =>
         lowerChar f = 'f' && lowerChar r = 'r' && lowerChar o = 'o' && lowerChar m = 'm' &&
           (match rest with
            | w :: _ => isSpaceChar w
            | [] => false)
       | _ => false)

/-- Lookahead alternative three of the column pattern: nothing but
whitespace up to the end of the string. -/
def lookEnd (s : List Char) : Bool := s.all isSpaceChar

/-- The lookahead of the column pattern of validate_query_columns
(src/server.py line 156). -/
def lookaheadOk (s : List Char) : Bool := lookComma s || lookFrom s || lookEnd s

/-- Scanner model of collecting every match of the column pattern: each
maximal word run whose following text satisfies the lookahead is a column
candidate. -/
def extractGo : List Char → List Char → List String
  | [], run => if run.isEmpty then [] else [⟨run.reverse⟩]
  | c :: cs, run =>
    if isWordChar c then extractGo cs (c :: run)
    else if run.isEmpty then extractGo cs []
    else (if lookaheadOk (c :: cs) then [(⟨run.reverse⟩ : String)] else []) ++ extractGo cs []

/-- The column candidates extracted from a query string
(src/server.py lines 156-157). -/
def extractColumns (query : String) : List String := extractGo query.data []

/-- One candidate check of validate_query_columns (src/server.py lines
162-164): flag the candidate when its lowercase form is neither among the
lowercased valid columns of the current table nor literally among the
already flagged entries. -/
def validateStep (valid : List String) (inv : List String) (c : String) : List String :=
  if strLower c ∉ valid.map strLower ∧ strLower c ∉ inv then inv ++ [c] else inv

/-- The table loop of validate_query_columns (src/server.py lines 160-164).
The dict subscript schema[table] raises KeyError for a missing table,
modelled by none; the Python set relevant_tables is modelled as a list in
its iteration order. -/
def validateGo (schema : Schema) (cols : List String) : List String → List String → Option (List String)
  | [], inv => some inv
  | t :: ts, inv =>
    match lookupTable schema t with
    | none => none
    | some tbl => validateGo schema cols ts (cols.foldl (validateStep tbl.columns) inv)

/-- validate_query_columns (src/server.py lines 154-168): extract column
candidates from the query, then flag the invalid ones table by table. -/
def validate_query_columns (query : String) (schema : Schema) (relevant_tables : List String) :
    Option (List String) :=
  validateGo schema (extractColumns query) relevant_tables []

/-- The recursive foreign-key closure traverse_relationships
(src/server.py lines 100-108), with explicit fuel standing for the
recursion depth; totalFuel below always suffices (see traverse_stable).
Exactly as in the source, a related table is added to the set before the
recursive call checks whether it exists in the schema. -/
def traverse_relationships (schema : Schema) : Nat → String → List String → List String
  | 0, _, rel => rel
  | fuel + 1, table, rel =>
    match lookupTable schema table with
    | none => rel
    | some tbl =>
      tbl.foreign_keys.foldl
        (fun r kv => if kv.2 ∈ r then r else traverse_relationships schema fuel kv.2 (kv.2 :: r))
        rel

/-- The inner fold of traverse_relationships over the foreign-key entries
of one table, at the recursion depth remaining for the nested calls. -/
def traverseFold (schema : Schema) (f : Nat) (l : List (String × String)) (r : List String) :
    List String :=
  l.foldl (fun r kv => if kv.2 ∈ r then r else traverse_relationships schema f kv.2 (kv.2 :: r)) r

/-- All foreign-key target names occurring anywhere in the schema; only
these can ever be added by the closure. -/
def allTargets (schema : Schema) : List String :=
  schema.foldr (fun e acc => e.2.foreign_keys.map Prod.snd ++ acc) []

/-- Enough fuel for any traversal: one more than the number of distinct
foreign-key targets. -/
def totalFuel (schema : Schema) : Nat := (allTargets schema).dedup.length + 1

/-- How many distinct foreign-key targets are not yet in the visited set. -/
def unvisitedCount (schema : Schema) (rel : List String) : Nat :=
  ((allTargets schema).dedup.filter (fun x => decide (x ∉ rel))).length

/-- One step of the closure loop of find_relevant_tables
(src/server.py lines 147-148). -/
def closeStep (schema : Schema) (rel : List String) (t : String) : List String :=
  traverse_relationships schema (totalFuel schema) t rel

/-- The closure loop of find_relevant_tables (src/server.py lines 146-148):
start from the matched tables and traverse relationships from each. -/
def closeTables (schema : Schema) (matched : List String) : List String :=
  matched.foldl (closeStep schema) matched

/-- The external lexical libraries used by find_relevant_tables: the fuzzy
token-set similarity scorer and the singular/plural engine, abstracted as
parameters of the model. -/
structure NlpEnv where
  score : String → String → Nat
  singular : String → Option String
  plural : String → String

/-- generate_variations (src/server.py lines 96-97): the word itself, its
singular form falling back to the word, and its plural form. -/
def generate_variations (env : NlpEnv) (word : String) : List String :=
  [word, (env.singular word).getD word, env.plural word]

/-- Python dict insertion: overwrite in place when the key is present,
otherwise append; insertion order is preserved. -/
def dictInsert (m : List (String × String)) (k v : String) : List (String × String) :=
  if m.any (fun p => p.1 == k) then m.map (fun p => if p.1 == k then (k, v) else p)
  else m ++ [(k, v)]

/-- Python dict lookup. -/
def dictGet (m : List (String × String)) (k : String) : Option String :=
  (m.find? (fun p => p.1 == k)).map Prod.snd

/-- The keys of a dict in insertion order. -/
def dictKeys (m : List (String × String)) : List String := m.map Prod.fst

/-- The index-building loop of find_relevant_tables (src/server.py lines
117-132): variations of each table name map to the table, variations of
each column name map to the owning table. -/
def buildMaps (env : NlpEnv) (schema : Schema) :
    List (String × String) × List (String × String) :=
  schema.foldl
    (fun maps e =>
      let tmap := (generate_variations env (strLower e.1)).foldl (fun m v => dictInsert m v e.1) maps.1
      let cmap := e.2.columns.foldl
        (fun m col => (generate_variations env (strLower col)).foldl (fun m v => dictInsert m v e.1) m)
        maps.2
      (tmap, cmap))
    ([], [])

/-- Model of process.extractOne: the best score over the keys with the
first key winning ties; none when there are no keys. -/
def extractOne (score : String → String → Nat) (word : String) (keys : List String) :
    Option (String × Nat) :=
  keys.foldl
    (fun best k =>
      match best with
      | none => some (k, score word k)
      | some b => if score word k > b.2 then some (k, score word k) else some b)
    none

/-- Python set insertion, modelled in insertion order. -/
def insertSet (s : List String) (x : String) : List String := if x ∈ s then s else s ++ [x]

/-- Accepting one extractOne result (src/server.py lines 137-138 and
142-143): add the owning table when the best score exceeds 60. -/
def addBest (m : List (String × String)) (acc : List String) (o : Option (String × Nat)) :
    List String :=
  match o with
  | some ks =>
    if ks.2 > 60 then
      match dictGet m ks.1 with
      | some t => insertSet acc t
      | none => acc
    else acc
  | none => acc

/-- One iteration of the matching loop of find_relevant_tables
(src/server.py lines 135-144): the word is matched against the table map
and then against the column map. -/
def matchStep (env : NlpEnv) (tmap cmap : List (String × String))
    (acc : List String) (word : String) : List String :=
  addBest cmap (addBest tmap acc (extractOne env.score word (dictKeys tmap)))
    (extractOne env.score word (dictKeys cmap))

/-- The matching loop over all prompt words (src/server.py lines 134-144). -/
def matchedTables (env : NlpEnv) (words : List String)
    (tmap cmap : List (String × String)) : List String :=
  words.foldl (matchStep env tmap cmap) []

/-- find_relevant_tables (src/server.py lines 111-151): tokenize the
lowercased prompt, drop stop words, fuzzy-match every word against both
variation maps, then close the matched set over foreign-key edges. -/
def find_relevant_tables (env : NlpEnv) (prompt : String) (schema : Schema) : List String :=
  let prompt_words := (tokenizeWords (strLower prompt)).filter (fun w => decide (w ∉ STOP_WORDS))
  let maps := buildMaps env schema
  closeTables schema (matchedTables env prompt_words maps.1 maps.2)

/-- Outcome of the relevance check of the endpoint. -/
inductive RelevanceOutcome where
  | rejected (error : String)
  | accepted (relevant_tables : List String)
deriving DecidableEq

/-- The relevance check of generate_and_execute_sql (src/server.py lines
215-217): an empty relevant set is answered with the 400 error response,
otherwise processing continues with the set. -/
def relevance_gate (rel : List String) : RelevanceOutcome :=
  if rel.isEmpty then .rejected "No relevant tables found for the prompt" else .accepted rel

/-- Reachability along foreign-key edges from a seed set: the
specification of the closure computed by traverse_relationships. -/
inductive Reach (schema : Schema) (seeds : List String) : String → Prop where
  | seed : ∀ t, t ∈ seeds → Reach schema seeds t
  | step : ∀ t tbl c u, Reach schema seeds t → lookupTable schema t = some tbl →
      (c, u) ∈ tbl.foreign_keys → Reach schema seeds u

/-- The foreign-key targets of a table present in the schema. -/
def targetsOf (schema : Schema) (t : String) : List String :=
  match lookupTable schema t with
  | none => []
  | some tbl => tbl.foreign_keys.map Prod.snd

/-- A table is closed in a set when all its foreign-key targets are in the
set. -/
def closedIn (schema : Schema) (s : List String) (t : String) : Prop :=
  ∀ u ∈ targetsOf schema t, u ∈ s

/-- A concrete lexical environment for witnesses: exact equality scores 100,
anything else 0, and the singular/plural engine leaves words unchanged. -/
def envEq : NlpEnv :=
  { score := fun w k => if w = k then 100 else 0
    singular := fun _ => none
    plural := fun w => w }

/-- The one-table schema of the validator test in the spec. -/
def schemaAssets : Schema := [("assets", ⟨["id", "name"], []⟩)]

/-- The query of the validator test in the spec. -/
def queryAssets : String := "SELECT name, bogus_col FROM assets"

/-- The vessels/cradles schema of the closure scenario in the spec. -/
def schemaVC : Schema :=
  [("vessels", ⟨["id", "vesselName", "assignedCradle"], [("assignedCradle", "cradles")]⟩),
   ("cradles", ⟨["id", "cradleName"], []⟩)]

/-- A schema whose single foreign key references a table that does not
exist. -/
def schemaDangling : Schema := [("assets", ⟨["id"], [("ref", "ghost")]⟩)]

/-- A two-table schema with a cyclic foreign-key graph. -/
def schemaCyc : Schema := [("a", ⟨[], [("x", "b")]⟩), ("b", ⟨[], [("y", "a")]⟩)]

/-- Two relevant tables of which only the first has the column x. -/
def schemaAB : Schema := [("a", ⟨["x"], []⟩), ("b", ⟨[], []⟩)]

lemma traverse_succ (schema : Schema) (f : Nat) (t : String) (rel : List String) :
    traverse_relationships schema (f + 1) t rel =
      match lookupTable schema t with
      | none => rel
      | some tbl => traverseFold schema f tbl.foreign_keys rel := rfl

lemma foldl_mem_mono {β : Type} (f : List String → β → List String)
    (hf : ∀ r b, ∀ x ∈ r, x ∈ f r b) :
    ∀ (l : List β) (r : List String), ∀ x ∈ r, x ∈ l.foldl f r := by
  intro l
  induction l with
  | nil => intro r x hx; simpa using hx
  | cons b l ih => intro r x hx; exact ih (f r b) x (hf r b x hx)

lemma length_filter_mono (p q : String → Bool) :
    ∀ l : List String, (∀ x ∈ l, p x = true → q x = true) →
      (l.filter p).length ≤ (l.filter q).length := by
  intro l
  induction l with
  | nil => intro _; simp
  | cons a l ih =>
    intro h
    have htail := ih (fun x hx => h x (List.mem_cons_of_mem a hx))
    by_cases hp : p a = true
    · have hq := h a (List.mem_cons_self a l) hp
      simp only [List.filter_cons, hp, hq, if_true, List.length_cons]
      omega
    · simp only [List.filter_cons, Bool.not_eq_true] at hp ⊢
      rw [hp]
      by_cases hq : q a = true
      · simp only [hq, if_true, List.length_cons]
        simp only [Bool.false_eq_true, if_false]
        omega
      · simp only [Bool.not_eq_true] at hq
        rw [hq]
        simpa using htail

lemma length_filter_lt (p q : String → Bool) (u : String) :
    ∀ l : List String, (∀ x ∈ l, p x = true → q x = true) → u ∈ l →
      q u = true → p u = false →
      (l.filter p).length < (l.filter q).length := by
  intro l
  induction l with
  | nil => intro _ hu; simp at hu
  | cons a l ih =>
    intro h hu hq hp
    rcases List.mem_cons.1 hu with rfl | hu
    · have htail := length_filter_mono p q l (fun x hx => h x (List.mem_cons_of_mem u hx))
      simp only [List.filter_cons, hp, hq, if_true, Bool.false_eq_true, if_false,
        List.length_cons]
      omega
    · have htail := ih (fun x hx => h x (List.mem_cons_of_mem a hx)) hu hq hp
      by_cases hpa : p a = true
      · have hqa := h a (List.mem_cons_self a l) hpa
        simp only [List.filter_cons, hpa, hqa, if_true, List.length_cons]
        omega
      · simp only [Bool.not_eq_true] at hpa
        simp only [List.filter_cons, hpa, Bool.false_eq_true, if_false]
        by_cases hqa : q a = true
        · simp only [hqa, if_true, List.length_cons]
          omega
        · simp only [Bool.not_eq_true] at hqa
          rw [hqa]
          simpa using htail

lemma mem_allTargets {schema : Schema} {t : String} {tbl : Table} {kv : String × String}
    (hl : lookupTable schema t = some tbl) (hkv : kv ∈ tbl.foreign_keys) :
    kv.2 ∈ allTargets schema := by
  induction schema with
  | nil => simp [lookupTable] at hl
  | cons e rest ih =>
    have hcons : allTargets (e :: rest) = e.2.foreign_keys.map Prod.snd ++ allTargets rest := rfl
    rw [lookupTable] at hl
    by_cases he : e.1 = t
    · rw [if_pos he] at hl
      injection hl with hl
      subst hl
      rw [hcons]
      exact List.mem_append_left _ (List.mem_map_of_mem Prod.snd hkv)
    · rw [if_neg he] at hl
      rw [hcons]
      exact List.mem_append_right _ (ih hl)

lemma unvisitedCount_le {schema : Schema} {a b : List String}
    (h : ∀ x ∈ a, x ∈ b) : unvisitedCount schema b ≤ unvisitedCount schema a := by
  apply length_filter_mono
  intro x _ hx
  simp only [decide_eq_true_eq] at hx ⊢
  intro hb
  exact hx (h x hb)

lemma unvisitedCount_lt {schema : Schema} {rel : List String} {u : String}
    (hu : u ∈ allTargets schema) (hrel : u ∉ rel) :
    unvisitedCount schema (u :: rel) < unvisitedCount schema rel := by
  apply length_filter_lt _ _ u
  · intro x _ hx
    simp only [decide_eq_true_eq, List.mem_cons] at hx ⊢
    intro hb
    exact hx (Or.inr hb)
  · exact List.mem_dedup.2 hu
  · simpa using hrel
  · simp

lemma traverse_mono (schema : Schema) :
    ∀ (fuel : Nat) (t : String) (rel : List String), ∀ x ∈ rel,
      x ∈ traverse_relationships schema fuel t rel := by
  intro fuel
  induction fuel with
  | zero => intro t rel x hx; simpa [traverse_relationships] using hx
  | succ f ih =>
    intro t rel x hx
    rw [traverse_succ]
    cases hl : lookupTable schema t with
    | none => simpa using hx
    | some tbl =>
      simp only
      apply foldl_mem_mono
      · intro r kv y hy
        by_cases hm : kv.2 ∈ r
        · simpa [hm] using hy
        · simp only [hm, if_false]
          exact ih kv.2 (kv.2 :: r) y (List.mem_cons_of_mem kv.2 hy)
      · exact hx

lemma closedIn_mono {schema : Schema} {s s' : List String} {t : String}
    (h : closedIn schema s t) (hsub : ∀ x ∈ s, x ∈ s') : closedIn schema s' t :=
  fun u hu => hsub u (h u hu)

lemma traverseFold_mono (schema : Schema) (f : Nat) :
    ∀ (l : List (String × String)) (r : List String), ∀ x ∈ r,
      x ∈ traverseFold schema f l r := by
  intro l r x hx
  apply foldl_mem_mono
  · intro r' kv y hy
    by_cases hm : kv.2 ∈ r'
    · simpa [hm] using hy
    · simp only [hm, if_false]
      exact traverse_mono schema f kv.2 (kv.2 :: r') y (List.mem_cons_of_mem kv.2 hy)
  · exact hx

lemma traverseFold_closed (schema : Schema) (f : Nat)
    (ihf : ∀ (rel : List String) (t : String), unvisitedCount schema rel < f →
      (∀ x ∈ traverse_relationships schema f t rel,
          x ∈ rel ∨ closedIn schema (traverse_relationships schema f t rel) x)
        ∧ closedIn schema (traverse_relationships schema f t rel) t) :
    ∀ (l : List (String × String)) (r : List String),
      (∀ kv ∈ l, kv.2 ∈ allTargets schema) →
      unvisitedCount schema r < f + 1 →
      (∀ x ∈ traverseFold schema f l r, x ∈ r ∨ closedIn schema (traverseFold schema f l r) x)
        ∧ (∀ kv ∈ l, kv.2 ∈ traverseFold schema f l r)
        ∧ (∀ x ∈ r, x ∈ traverseFold schema f l r) := by
  intro l
  induction l with
  | nil =>
    intro r _ _
    refine ⟨fun x hx => Or.inl (by simpa [traverseFold] using hx), ?_, ?_⟩
    · intro kv hkv; simp at hkv
    · intro x hx; simpa [traverseFold] using hx
  | cons kv l ih =>
    intro r hmem hcnt
    have hfold : traverseFold schema f (kv :: l) r =
        traverseFold schema f l (if kv.2 ∈ r then r else
          traverse_relationships schema f kv.2 (kv.2 :: r)) := by
      simp [traverseFold]
    by_cases hm : kv.2 ∈ r
    · rw [if_pos hm] at hfold
      obtain ⟨p1, p2, p3⟩ := ih r (fun e he => hmem e (List.mem_cons_of_mem kv he)) hcnt
      rw [hfold]
      refine ⟨p1, ?_, p3⟩
      intro e he
      rcases List.mem_cons.1 he with rfl | he
      · exact p3 e.2 hm
      · exact p2 e he
    · rw [if_neg hm] at hfold
      have htgt : kv.2 ∈ allTargets schema := hmem kv (List.mem_cons_self kv l)
      have hcnt2 : unvisitedCount schema (kv.2 :: r) < f := by
        have := unvisitedCount_lt htgt hm
        omega
      obtain ⟨a1, a2⟩ := ihf (kv.2 :: r) kv.2 hcnt2
      set r1 := traverse_relationships schema f kv.2 (kv.2 :: r) with hr1
      have hsub1 : ∀ x ∈ kv.2 :: r, x ∈ r1 := traverse_mono schema f kv.2 (kv.2 :: r)
      have hcnt3 : unvisitedCount schema r1 < f + 1 := by
        have h1 : unvisitedCount schema r1 ≤ unvisitedCount schema (kv.2 :: r) :=
          unvisitedCount_le hsub1
        omega
      obtain ⟨b1, b2, b3⟩ := ih r1 (fun e he => hmem e (List.mem_cons_of_mem kv he)) hcnt3
      rw [hfold]
      refine ⟨?_, ?_, ?_⟩
      · intro x hx
        rcases b1 x hx with hx1 | hcl
        · rcases a1 x hx1 with hx2 | hcl1
          · rcases List.mem_cons.1 hx2 with rfl | hx3
            · exact Or.inr (closedIn_mono a2 b3)
            · exact Or.inl hx3
          · exact Or.inr (closedIn_mono hcl1 b3)
        · exact Or.inr hcl
      · intro e he
        rcases List.mem_cons.1 he with rfl | he
        · exact b3 e.2 (hsub1 e.2 (List.mem_cons_self e.2 r))
        · exact b2 e he
      · intro x hx
        exact b3 x (hsub1 x (List.mem_cons_of_mem kv.2 hx))

lemma traverse_closed (schema : Schema) :
    ∀ (fuel : Nat) (rel : List String) (t : String), unvisitedCount schema rel < fuel →
      (∀ x ∈ traverse_relationships schema fuel t rel,
          x ∈ rel ∨ closedIn schema (traverse_relationships schema fuel t rel) x)
        ∧ closedIn schema (traverse_relationships schema fuel t rel) t := by
  intro fuel
  induction fuel with
  | zero => intro rel t h; omega
  | succ f ih =>
    intro rel t hcnt
    rw [traverse_succ]
    cases hl : lookupTable schema t with
    | none =>
      refine ⟨fun x hx => Or.inl hx, ?_⟩
      intro u hu
      simp [targetsOf, hl] at hu
    | some tbl =>
      simp only
      obtain ⟨p1, p2, _⟩ := traverseFold_closed schema f (fun rel' t' h => ih rel' t' h)
        tbl.foreign_keys rel (fun e he => mem_allTargets hl he) hcnt
      refine ⟨p1, ?_⟩
      intro u hu
      simp only [targetsOf, hl, List.mem_map] at hu
      obtain ⟨e, he, rfl⟩ := hu
      exact p2 e he

lemma traverseFold_congr (schema : Schema) (a b : Nat)
    (hab : ∀ (t : String) (rel : List String), unvisitedCount schema rel < a →
      unvisitedCount schema rel < b →
      traverse_relationships schema a t rel = traverse_relationships schema b t rel) :
    ∀ (l : List (String × String)) (r : List String),
      (∀ kv ∈ l, kv.2 ∈ allTargets schema) →
      unvisitedCount schema r < a + 1 → unvisitedCount schema r < b + 1 →
      traverseFold schema a l r = traverseFold schema b l r := by
  intro l
  induction l with
  | nil => intro r _ _ _; simp [traverseFold]
  | cons kv l ih =>
    intro r hmem hca hcb
    have hfa : traverseFold schema a (kv :: l) r =
        traverseFold schema a l (if kv.2 ∈ r then r else
          traverse_relationships schema a kv.2 (kv.2 :: r)) := by simp [traverseFold]
    have hfb : traverseFold schema b (kv :: l) r =
        traverseFold schema b l (if kv.2 ∈ r then r else
          traverse_relationships schema b kv.2 (kv.2 :: r)) := by simp [traverseFold]
    rw [hfa, hfb]
    by_cases hm : kv.2 ∈ r
    · rw [if_pos hm, if_pos hm]
      exact ih r (fun e he => hmem e (List.mem_cons_of_mem kv he)) hca hcb
    · rw [if_neg hm, if_neg hm]
      have htgt : kv.2 ∈ allTargets schema := hmem kv (List.mem_cons_self kv l)
      have hdec := unvisitedCount_lt htgt hm
      have heq : traverse_relationships schema a kv.2 (kv.2 :: r) =
          traverse_relationships schema b kv.2 (kv.2 :: r) :=
        hab kv.2 (kv.2 :: r) (by omega) (by omega)
      rw [heq]
      have hsub : ∀ x ∈ kv.2 :: r, x ∈ traverse_relationships schema b kv.2 (kv.2 :: r) :=
        traverse_mono schema b kv.2 (kv.2 :: r)
      have hle : unvisitedCount schema (traverse_relationships schema b kv.2 (kv.2 :: r)) ≤
          unvisitedCount schema (kv.2 :: r) := unvisitedCount_le hsub
      exact ih _ (fun e he => hmem e (List.mem_cons_of_mem kv he)) (by omega) (by omega)

lemma traverse_stable (schema : Schema) :
    ∀ (f1 f2 : Nat) (t : String) (rel : List String),
      unvisitedCount schema rel < f1 → unvisitedCount schema rel < f2 →
      traverse_relationships schema f1 t rel = traverse_relationships schema f2 t rel := by
  intro f1
  induction f1 with
  | zero => intro f2 t rel h1 _; omega
  | succ a ih =>
    intro f2 t rel h1 h2
    cases f2 with
    | zero => omega
    | succ b =>
      rw [traverse_succ, traverse_succ]
      cases hl : lookupTable schema t with
      | none => rfl
      | some tbl =>
        simp only
        exact traverseFold_congr schema a b (fun t' rel' ha hb => ih b t' rel' ha hb)
          tbl.foreign_keys rel (fun e he => mem_allTargets hl he) h1 h2

lemma unvisitedCount_lt_totalFuel (schema : Schema) (rel : List String) :
    unvisitedCount schema rel < totalFuel schema := by
  have h := List.length_filter_le (fun x => decide (x ∉ rel)) (allTargets schema).dedup
  simp only [unvisitedCount, totalFuel]
  omega

lemma closeTables_mono (schema : Schema) (m : List String) :
    ∀ x ∈ m, x ∈ closeTables schema m := by
  intro x hx
  apply foldl_mem_mono
  · intro r t y hy
    exact traverse_mono schema (totalFuel schema) t r y hy
  · exact hx

lemma closeFold_closed (schema : Schema) :
    ∀ (l : List String) (rel : List String),
      (∀ x ∈ rel, x ∈ l ∨ closedIn schema rel x) →
      ∀ x ∈ l.foldl (closeStep schema) rel,
        closedIn schema (l.foldl (closeStep schema) rel) x := by
  intro l
  induction l with
  | nil =>
    intro rel h x hx
    simp only [List.foldl_nil] at hx ⊢
    rcases h x hx with hl | hc
    · simp at hl
    · exact hc
  | cons t l ih =>
    intro rel h x hx
    simp only [List.foldl_cons] at hx ⊢
    have hcnt := unvisitedCount_lt_totalFuel schema rel
    obtain ⟨p1, p2⟩ := traverse_closed schema (totalFuel schema) rel t hcnt
    apply ih (closeStep schema rel t)
    · intro y hy
      rcases p1 y hy with hy1 | hc
      · rcases h y hy1 with hl | hc1
        · rcases List.mem_cons.1 hl with rfl | hl1
          · exact Or.inr p2
          · exact Or.inl hl1
        · exact Or.inr (closedIn_mono hc1 (traverse_mono schema (totalFuel schema) t rel))
      · exact Or.inr hc
    · exact hx

lemma closeTables_closed (schema : Schema) (m : List String) :
    ∀ x ∈ closeTables schema m, closedIn schema (closeTables schema m) x := by
  intro x hx
  exact closeFold_closed schema m m (fun y hy => Or.inl hy) x hx

lemma traverseFold_sound (schema : Schema) (seeds : List String) (f : Nat)
    (ihf : ∀ (t : String) (rel : List String), Reach schema seeds t →
      (∀ y ∈ rel, Reach schema seeds y) →
      ∀ x ∈ traverse_relationships schema f t rel, Reach schema seeds x) :
    ∀ (l : List (String × String)) (r : List String) (t : String) (tbl : Table),
      lookupTable schema t = some tbl → (∀ kv ∈ l, kv ∈ tbl.foreign_keys) →
      Reach schema seeds t → (∀ y ∈ r, Reach schema seeds y) →
      ∀ x ∈ traverseFold schema f l r, Reach schema seeds x := by
  intro l
  induction l with
  | nil =>
    intro r t tbl _ _ _ hr x hx
    exact hr x (by simpa [traverseFold] using hx)
  | cons kv l ih =>
    intro r t tbl hl hsub ht hr x hx
    have hfold : traverseFold schema f (kv :: l) r =
        traverseFold schema f l (if kv.2 ∈ r then r else
          traverse_relationships schema f kv.2 (kv.2 :: r)) := by simp [traverseFold]
    rw [hfold] at hx
    by_cases hm : kv.2 ∈ r
    · rw [if_pos hm] at hx
      exact ih r t tbl hl (fun e he => hsub e (List.mem_cons_of_mem kv he)) ht hr x hx
    · rw [if_neg hm] at hx
      have hkv : kv ∈ tbl.foreign_keys := hsub kv (List.mem_cons_self kv l)
      have hstep : Reach schema seeds kv.2 := by
        refine Reach.step t tbl kv.1 kv.2 ht hl ?_
        simpa using hkv
      have hall : ∀ y ∈ traverse_relationships schema f kv.2 (kv.2 :: r),
          Reach schema seeds y := by
        apply ihf kv.2 (kv.2 :: r) hstep
        intro y hy
        rcases List.mem_cons.1 hy with rfl | hy1
        · exact hstep
        · exact hr y hy1
      exact ih _ t tbl hl (fun e he => hsub e (List.mem_cons_of_mem kv he)) ht hall x hx

lemma traverse_sound (schema : Schema) (seeds : List String) :
    ∀ (fuel : Nat) (t : String) (rel : List String), Reach schema seeds t →
      (∀ y ∈ rel, Reach schema seeds y) →
      ∀ x ∈ traverse_relationships schema fuel t rel, Reach schema seeds x := by
  intro fuel
  induction fuel with
  | zero =>
    intro t rel _ hr x hx
    exact hr x (by simpa [traverse_relationships] using hx)
  | succ f ih =>
    intro t rel ht hr x hx
    rw [traverse_succ] at hx
    cases hl : lookupTable schema t with
    | none => rw [hl] at hx; exact hr x hx
    | some tbl =>
      rw [hl] at hx
      exact traverseFold_sound schema seeds f ih tbl.foreign_keys rel t tbl hl
        (fun e he => he) ht hr x hx

lemma closeTables_sound (schema : Schema) (m : List String) :
    ∀ x ∈ closeTables schema m, Reach schema m x := by
  have haux : ∀ (l : List String) (rel : List String),
      (∀ t ∈ l, Reach schema m t) → (∀ y ∈ rel, Reach schema m y) →
      ∀ x ∈ l.foldl (closeStep schema) rel, Reach schema m x := by
    intro l
    induction l with
    | nil => intro rel _ hr x hx; exact hr x (by simpa using hx)
    | cons t l ih =>
      intro rel hl hr x hx
      simp only [List.foldl_cons] at hx
      refine ih (closeStep schema rel t) (fun s hs => hl s (List.mem_cons_of_mem t hs)) ?_ x hx
      exact traverse_sound schema m (totalFuel schema) t rel (hl t (List.mem_cons_self t l)) hr
  intro x hx
  exact haux m m (fun t ht => Reach.seed t ht) (fun y hy => Reach.seed y hy) x hx

lemma Reach_mono {schema : Schema} {s1 s2 : List String} (h : ∀ x ∈ s1, x ∈ s2) :
    ∀ {x : String}, Reach schema s1 x → Reach schema s2 x := by
  intro x hx
  induction hx with
  | seed t ht => exact Reach.seed t (h t ht)
  | step t tbl c u _ hl hm ih => exact Reach.step t tbl c u ih hl hm

lemma closeTables_complete (schema : Schema) (m : List String) :
    ∀ {x : String}, Reach schema m x → x ∈ closeTables schema m := by
  intro x hx
  induction hx with
  | seed t ht => exact closeTables_mono schema m t ht
  | step t tbl c u _ hl hm ih =>
    apply closeTables_closed schema m t ih
    simp only [targetsOf, hl, List.mem_map]
    exact ⟨(c, u), hm, rfl⟩

lemma data_append (s t : String) : (s ++ t).data = s.data ++ t.data := rfl

lemma strLower_append (s t : String) : strLower (s ++ t) = strLower s ++ strLower t := by
  cases s with
  | mk a =>
    cases t with
    | mk b =>
      show String.mk ((a ++ b).map lowerChar) = String.mk (a.map lowerChar ++ b.map lowerChar)
      rw [List.map_append]

lemma strLower_space : strLower " " = " " := rfl

lemma tokenizeAux_append (ys : List Char) :
    ∀ (xs cur : List Char), tokenizeAux (xs ++ ' ' :: ys) cur =
      tokenizeAux xs cur ++ tokenizeAux ys [] := by
  intro xs
  have hsp : isWordChar ' ' = false := rfl
  induction xs with
  | nil =>
    intro cur
    cases cur with
    | nil => simp [tokenizeAux, hsp]
    | cons c cs => simp [tokenizeAux, hsp]
  | cons c xs ih =>
    intro cur
    by_cases hw : isWordChar c = true
    · simp only [List.cons_append, tokenizeAux, hw, if_true]
      exact ih (c :: cur)
    · simp only [Bool.not_eq_true] at hw
      cases cur with
      | nil =>
        simp only [List.cons_append, tokenizeAux, hw, Bool.false_eq_true, if_false,
          List.isEmpty_nil, if_true]
        simpa [List.append_eq] using ih []
      | cons d ds =>
        simp only [List.cons_append, tokenizeAux, hw, Bool.false_eq_true, if_false,
          List.isEmpty_cons, List.cons_append, List.append_eq]
        rw [ih []]

lemma tokenizeWords_append (p q : String) :
    tokenizeWords (p ++ " " ++ q) = tokenizeWords p ++ tokenizeWords q := by
  have hd : (p ++ " " ++ q).data = p.data ++ ' ' :: q.data := by
    rw [data_append, data_append]
    simp
  simp only [tokenizeWords, hd]
  exact tokenizeAux_append q.data p.data []

lemma insertSet_mono (s : List String) (x y : String) (h : y ∈ s) : y ∈ insertSet s x := by
  by_cases hx : x ∈ s
  · simpa [insertSet, hx] using h
  · simp [insertSet, hx, List.mem_append]
    exact Or.inl h

lemma addBest_mono (m : List (String × String)) (acc : List String)
    (o : Option (String × Nat)) (y : String) (h : y ∈ acc) : y ∈ addBest m acc o := by
  cases o with
  | none => simpa [addBest] using h
  | some ks =>
    by_cases hs : ks.2 > 60
    · cases hg : dictGet m ks.1 with
      | none => simpa [addBest, hs, hg] using h
      | some t =>
        simp only [addBest, hs, if_true, hg]
        exact insertSet_mono acc t y h
    · simpa [addBest, hs] using h

lemma matchStep_mono (env : NlpEnv) (tmap cmap : List (String × String))
    (acc : List String) (word : String) (y : String) (h : y ∈ acc) :
    y ∈ matchStep env tmap cmap acc word := by
  apply addBest_mono
  apply addBest_mono
  exact h

lemma matchedTables_append (env : NlpEnv) (ws ws' : List String)
    (tmap cmap : List (String × String)) :
    ∀ x ∈ matchedTables env ws tmap cmap, x ∈ matchedTables env (ws ++ ws') tmap cmap := by
  intro x hx
  simp only [matchedTables, List.foldl_append]
  apply foldl_mem_mono
  · intro r w y hy
    exact matchStep_mono env tmap cmap r w y hy
  · exact hx

lemma find_relevant_tables_eq (env : NlpEnv) (prompt : String) (schema : Schema) :
    find_relevant_tables env prompt schema =
      closeTables schema
        (matchedTables env
          ((tokenizeWords (strLower prompt)).filter (fun w => decide (w ∉ STOP_WORDS)))
          (buildMaps env schema).1 (buildMaps env schema).2) := rfl

lemma lowerChar_idem (c : Char) : lowerChar (lowerChar c) = lowerChar c := by
  by_cases h : c ∈ (['A', 'B', 'C', 'D', 'E', 'F', 'G', 'H', 'I', 'J', 'K', 'L', 'M',
      'N', 'O', 'P', 'Q', 'R', 'S', 'T', 'U', 'V', 'W', 'X', 'Y', 'Z'] : List Char)
  · fin_cases h <;> rfl
  · simp only [List.mem_cons, List.not_mem_nil, or_false, not_or] at h
    obtain ⟨hA, hB, hC, hD, hE, hF, hG, hH, hI, hJ, hK, hL, hM,
      hN, hO, hP, hQ, hR, hS, hT, hU, hV, hW, hX, hY, hZ⟩ := h
    have hc : lowerChar c = c := by
      simp [lowerChar, hA, hB, hC, hD, hE, hF, hG, hH, hI, hJ, hK, hL, hM,
        hN, hO, hP, hQ, hR, hS, hT, hU, hV, hW, hX, hY, hZ]
    rw [hc, hc]

lemma map_lowerChar_idem : ∀ l : List Char, (l.map lowerChar).map lowerChar = l.map lowerChar := by
  intro l
  induction l with
  | nil => rfl
  | cons x xs ih => simp only [List.map_cons, lowerChar_idem, ih]

lemma strLower_idem (s : String) : strLower (strLower s) = strLower s := by
  cases s with
  | mk a =>
    show String.mk ((a.map lowerChar).map lowerChar) = String.mk (a.map lowerChar)
    rw [map_lowerChar_idem]

lemma validateStep_mem (valid inv : List String) (c : String) (s : String) :
    s ∈ (validateStep valid inv c).map strLower ↔
      s ∈ inv.map strLower ∨ (strLower c = s ∧ s ∉ valid.map strLower) := by
  by_cases hcond : strLower c ∉ valid.map strLower ∧ strLower c ∉ inv
  · simp only [validateStep, if_pos hcond, List.map_append, List.map_cons, List.map_nil,
      List.mem_append, List.mem_cons, List.not_mem_nil, or_false]
    constructor
    · rintro (h | h)
      · exact Or.inl h
      · exact Or.inr ⟨h.symm, h ▸ hcond.1⟩
    · rintro (h | ⟨heq, _⟩)
      · exact Or.inl h
      · exact Or.inr heq.symm
  · simp only [validateStep, if_neg hcond]
    rw [not_and_or, not_not, not_not] at hcond
    constructor
    · exact Or.inl
    · rintro (h | ⟨heq, hnv⟩)
      · exact h
      · rcases hcond with hv | hi
        · exact absurd (heq ▸ hv) hnv
        · exact List.mem_map.2 ⟨strLower c, hi, by rw [strLower_idem, heq]⟩

lemma validateFold_mem (valid : List String) :
    ∀ (cols inv : List String) (s : String),
      s ∈ (cols.foldl (validateStep valid) inv).map strLower ↔
        s ∈ inv.map strLower ∨
          ((∃ c ∈ cols, strLower c = s) ∧ s ∉ valid.map strLower) := by
  intro cols
  induction cols with
  | nil => intro inv s; simp
  | cons c cols ih =>
    intro inv s
    rw [List.foldl_cons, ih (validateStep valid inv c) s, validateStep_mem]
    simp only [List.exists_mem_cons_iff]
    tauto

lemma validateGo_mem (schema : Schema) (cols : List String) :
    ∀ (ts inv out : List String), validateGo schema cols ts inv = some out →
      ∀ s, s ∈ out.map strLower ↔
        s ∈ inv.map strLower ∨
          ((∃ c ∈ cols, strLower c = s) ∧
            ∃ t ∈ ts, ∃ tbl, lookupTable schema t = some tbl ∧
              s ∉ tbl.columns.map strLower) := by
  intro ts
  induction ts with
  | nil =>
    intro inv out h s
    simp only [validateGo] at h
    injection h with h
    subst h
    simp
  | cons t ts ih =>
    intro inv out h s
    simp only [validateGo] at h
    cases hl : lookupTable schema t with
    | none => rw [hl] at h; exact absurd h (by simp)
    | some tbl =>
      rw [hl] at h
      rw [ih _ _ h s, validateFold_mem]
      simp only [List.exists_mem_cons_iff, hl, Option.some.injEq]
      constructor
      · rintro ((h1 | ⟨h2, h3⟩) | ⟨h2, h4⟩)
        · exact Or.inl h1
        · exact Or.inr ⟨h2, Or.inl ⟨tbl, rfl, h3⟩⟩
        · exact Or.inr ⟨h2, Or.inr h4⟩
      · rintro (h1 | ⟨h2, ⟨tbl1, htbl, h3⟩ | h4⟩)
        · exact Or.inl (Or.inl h1)
        · exact Or.inl (Or.inr ⟨h2, by rwa [htbl]⟩)
        · exact Or.inr ⟨h2, h4⟩

lemma validateGo_total (schema : Schema) (cols : List String) :
    ∀ (ts inv : List String), (∀ t ∈ ts, (lookupTable schema t).isSome) →
      ∃ out, validateGo schema cols ts inv = some out := by
  intro ts
  induction ts with
  | nil => intro inv _; exact ⟨inv, rfl⟩
  | cons t ts ih =>
    intro inv h
    have ht := h t (List.mem_cons_self t ts)
    cases hl : lookupTable schema t with
    | none => rw [hl] at ht; simp at ht
    | some tbl =>
      obtain ⟨out, hout⟩ := ih (cols.foldl (validateStep tbl.columns) inv)
        (fun x hx => h x (List.mem_cons_of_mem t hx))
      exact ⟨out, by simp only [validateGo, hl]; exact hout⟩

/-- C1, counterexample: in schemaDangling the table assets has a foreign key
to the absent table ghost; a prompt seeding assets produces a relevant set
that DOES contain ghost, contradicting the claim that the absent target
does not appear in the result. -/
theorem C1_counterexample :
    lookupTable schemaDangling "ghost" = none ∧
      "ghost" ∈ find_relevant_tables envEq "assets" schemaDangling := by
  constructor
  · decide
  · decide

/-- C1 (amended): relevance resolution never crashes, and a foreign-key
target absent from the schema IS added to the returned relevant set of
find_relevant_tables; only its further traversal is skipped. -/
theorem C1_dangling_target_in_result (env : NlpEnv) (prompt : String) (schema : Schema)
    (t : String) (tbl : Table) (c u : String)
    (ht : t ∈ find_relevant_tables env prompt schema)
    (hl : lookupTable schema t = some tbl)
    (hk : (c, u) ∈ tbl.foreign_keys)
    (_hu : lookupTable schema u = none) :
    u ∈ find_relevant_tables env prompt schema := by
  rw [find_relevant_tables_eq] at ht ⊢
  apply closeTables_closed schema _ t ht
  simp only [targetsOf, hl, List.mem_map]
  exact ⟨(c, u), hk, rfl⟩

/-- C1, witness: the amended statement applied to the concrete dangling
schema. -/
theorem C1_dangling_witness :
    "assets" ∈ find_relevant_tables envEq "assets" schemaDangling ∧
      lookupTable schemaDangling "assets" = some ⟨["id"], [("ref", "ghost")]⟩ ∧
      ("ref", "ghost") ∈ (Table.mk ["id"] [("ref", "ghost")]).foreign_keys ∧
      lookupTable schemaDangling "ghost" = none ∧
      "ghost" ∈ find_relevant_tables envEq "assets" schemaDangling :=
  ⟨by decide, by decide, by decide, by decide,
    C1_dangling_target_in_result envEq "assets" schemaDangling "assets"
      ⟨["id"], [("ref", "ghost")]⟩ "ref" "ghost" (by decide) (by decide) (by decide) (by decide)⟩

/-- C2, counterexample: on the spec's own validator test the flagged list is
not the one-element list containing bogus_col. -/
theorem C2_counterexample :
    validate_query_columns queryAssets schemaAssets ["assets"] ≠ some ["bogus_col"] := by
  decide

/-- C2 (amended): for the schema with table assets and columns id and name,
relevant set containing assets, and the query SELECT name, bogus_col FROM
assets, the flagged list is exactly bogus_col followed by assets: the
trailing table name is also extracted as a column candidate (it is a word
run at the end of the string) and is not a column. -/
theorem C2_flagged_list :
    validate_query_columns queryAssets schemaAssets ["assets"] =
      some ["bogus_col", "assets"] := by
  decide

/-- C3, counterexample: with relevant tables a and b, where only a has the
column x, the query consisting of the candidate x gets x flagged even
though its lowercase form is present in the columns of the relevant table
a — flagging happens per table, not only when the identifier is absent
from every relevant table. -/
theorem C3_counterexample :
    validate_query_columns "x)" schemaAB ["a", "b"] = some ["x"] ∧
      "a" ∈ (["a", "b"] : List String) ∧
      lookupTable schemaAB "a" = some ⟨["x"], []⟩ ∧
      strLower "x" ∈ (Table.mk ["x"] []).columns.map strLower := by
  refine ⟨by decide, by decide, by decide, by decide⟩

/-- C3 (amended): when validation succeeds, an identifier appears (up to
lowercasing) in the flagged list exactly when some extracted candidate has
that lowercase form and the form is absent, case-insensitively, from the
columns of AT LEAST ONE table of the relevant set; the first-seen dedup of
the source compares the lowercase form against raw flagged entries, so the
list may contain case-variant duplicates. -/
theorem C3_flag_characterization (query : String) (schema : Schema)
    (relevant_tables out : List String)
    (h : validate_query_columns query schema relevant_tables = some out) (s : String) :
    s ∈ out.map strLower ↔
      (∃ c ∈ extractColumns query, strLower c = s) ∧
        ∃ t ∈ relevant_tables, ∃ tbl, lookupTable schema t = some tbl ∧
          s ∉ tbl.columns.map strLower := by
  have hmem := validateGo_mem schema (extractColumns query) relevant_tables [] out h s
  simpa using hmem

/-- C3, witness: the characterization applied to the two-table example. -/
theorem C3_witness :
    validate_query_columns "x)" schemaAB ["a", "b"] = some ["x"] ∧
      ("x" ∈ (["x"] : List String).map strLower ↔
        (∃ c ∈ extractColumns "x)", strLower c = "x") ∧
          ∃ t ∈ (["a", "b"] : List String), ∃ tbl, lookupTable schemaAB t = some tbl ∧
            "x" ∉ tbl.columns.map strLower) :=
  ⟨by decide, C3_flag_characterization "x)" schemaAB ["a", "b"] ["x"] (by decide) "x"⟩

/-- C4, counterexample: when the relevant set names a table that is not a
key of the schema, validate_query_columns fails (the dict subscript raises
KeyError, modelled by none) instead of returning a list. -/
theorem C4_counterexample :
    validate_query_columns "SELECT name FROM ghost" ([] : Schema) ["ghost"] = none := by
  decide

/-- C4 (amended): validate_query_columns is total and returns a flagged
list for every query and schema PROVIDED every table of the relevant set is
a key of the schema; with an unknown table in the relevant set it raises
KeyError. -/
theorem C4_total_on_known_tables (query : String) (schema : Schema)
    (relevant_tables : List String)
    (h : ∀ t ∈ relevant_tables, (lookupTable schema t).isSome) :
    ∃ out, validate_query_columns query schema relevant_tables = some out :=
  validateGo_total schema (extractColumns query) relevant_tables [] h

/-- C4, witness: totality on the concrete assets example. -/
theorem C4_witness :
    (∀ t ∈ (["assets"] : List String), (lookupTable schemaAssets t).isSome) ∧
      ∃ out, validate_query_columns queryAssets schemaAssets ["assets"] = some out :=
  ⟨by decide, C4_total_on_known_tables queryAssets schemaAssets ["assets"] (by decide)⟩

/-- C5: the set returned by find_relevant_tables is closed under forward
foreign-key edges — for every table of the result present in the schema,
every foreign-key target of that table is also in the result. -/
theorem C5_closure_invariant (env : NlpEnv) (prompt : String) (schema : Schema)
    (t : String) (tbl : Table) (c u : String)
    (ht : t ∈ find_relevant_tables env prompt schema)
    (hl : lookupTable schema t = some tbl)
    (hk : (c, u) ∈ tbl.foreign_keys) :
    u ∈ find_relevant_tables env prompt schema := by
  rw [find_relevant_tables_eq] at ht ⊢
  apply closeTables_closed schema _ t ht
  simp only [targetsOf, hl, List.mem_map]
  exact ⟨(c, u), hk, rfl⟩

/-- C5, witness: the closure invariant on the vessels/cradles schema. -/
theorem C5_witness :
    "vessels" ∈ find_relevant_tables envEq "vessels" schemaVC ∧
      lookupTable schemaVC "vessels" =
        some ⟨["id", "vesselName", "assignedCradle"], [("assignedCradle", "cradles")]⟩ ∧
      ("assignedCradle", "cradles") ∈
        (Table.mk ["id", "vesselName", "assignedCradle"]
          [("assignedCradle", "cradles")]).foreign_keys ∧
      "cradles" ∈ find_relevant_tables envEq "vessels" schemaVC :=
  ⟨by decide, by decide, by decide,
    C5_closure_invariant envEq "vessels" schemaVC "vessels"
      ⟨["id", "vesselName", "assignedCradle"], [("assignedCradle", "cradles")]⟩
      "assignedCradle" "cradles" (by decide) (by decide) (by decide)⟩

/-- C6: a prompt all of whose word tokens are stop words yields an empty
relevant set, and the endpoint's relevance check turns the empty set into
the rejected 400 response rather than a normal success. -/
theorem C6_stop_words_rejected (env : NlpEnv) (prompt : String) (schema : Schema)
    (h : ∀ w ∈ tokenizeWords (strLower prompt), w ∈ STOP_WORDS) :
    find_relevant_tables env prompt schema = [] ∧
      relevance_gate (find_relevant_tables env prompt schema) =
        RelevanceOutcome.rejected "No relevant tables found for the prompt" := by
  have hw : (tokenizeWords (strLower prompt)).filter (fun w => decide (w ∉ STOP_WORDS)) = [] := by
    rw [List.filter_eq_nil_iff]
    intro a ha
    simp only [decide_eq_true_eq, not_not]
    exact h a ha
  have hfind : find_relevant_tables env prompt schema = [] := by
    rw [find_relevant_tables_eq, hw]
    rfl
  exact ⟨hfind, by rw [hfind]; rfl⟩

/-- C6, witness: the stop-word prompt of the spec. -/
theorem C6_witness :
    (∀ w ∈ tokenizeWords (strLower "list all"), w ∈ STOP_WORDS) ∧
      (find_relevant_tables envEq "list all" schemaVC = [] ∧
        relevance_gate (find_relevant_tables envEq "list all" schemaVC) =
          RelevanceOutcome.rejected "No relevant tables found for the prompt") :=
  ⟨by decide, C6_stop_words_rejected envEq "list all" schemaVC (by decide)⟩

/-- C7: find_relevant_tables is a pure function of the lexical environment,
the prompt and the schema; two runs on identical inputs return the
identical relevant set — there is no randomness or time dependence. -/
theorem C7_deterministic (env : NlpEnv) (p1 p2 : String) (s1 s2 : Schema)
    (hp : p1 = p2) (hs : s1 = s2) :
    find_relevant_tables env p1 s1 = find_relevant_tables env p2 s2 := by
  rw [hp, hs]

/-- C7, witness: determinism at a concrete prompt and schema. -/
theorem C7_witness :
    ("vessels" : String) = "vessels" ∧ schemaVC = schemaVC ∧
      find_relevant_tables envEq "vessels" schemaVC =
        find_relevant_tables envEq "vessels" schemaVC :=
  ⟨rfl, rfl, C7_deterministic envEq "vessels" "vessels" schemaVC schemaVC rfl rfl⟩

/-- C8: extending the prompt with further whitespace-separated text never
removes a table from the result of find_relevant_tables — every table
relevant for the original prompt is relevant for the extended prompt. -/
theorem C8_monotone (env : NlpEnv) (p q : String) (schema : Schema) (x : String)
    (hx : x ∈ find_relevant_tables env p schema) :
    x ∈ find_relevant_tables env (p ++ " " ++ q) schema := by
  rw [find_relevant_tables_eq] at hx ⊢
  have hlow : strLower (p ++ " " ++ q) = strLower p ++ " " ++ strLower q := by
    rw [strLower_append, strLower_append, strLower_space]
  have hwords : (tokenizeWords (strLower (p ++ " " ++ q))).filter
      (fun w => decide (w ∉ STOP_WORDS)) =
      (tokenizeWords (strLower p)).filter (fun w => decide (w ∉ STOP_WORDS)) ++
        (tokenizeWords (strLower q)).filter (fun w => decide (w ∉ STOP_WORDS)) := by
    rw [hlow, tokenizeWords_append, List.filter_append]
  rw [hwords]
  have hr : Reach schema
      (matchedTables env
        ((tokenizeWords (strLower p)).filter (fun w => decide (w ∉ STOP_WORDS)))
        (buildMaps env schema).1 (buildMaps env schema).2) x :=
    closeTables_sound schema _ x hx
  apply closeTables_complete
  refine Reach_mono ?_ hr
  intro y hy
  exact matchedTables_append env _ _ _ _ y hy

/-- C8, witness: monotone extension of a concrete prompt. -/
theorem C8_witness :
    "vessels" ∈ find_relevant_tables envEq "vessels" schemaVC ∧
      "vessels" ∈ find_relevant_tables envEq ("vessels" ++ " " ++ "cradles") schemaVC :=
  ⟨by decide, C8_monotone envEq "vessels" "cradles" schemaVC "vessels" (by decide)⟩

/-- C9: the foreign-key closure is total and terminates on every finite
schema, cyclic graphs included, because already-visited tables are never
re-traversed: beyond the depth bound totalFuel the recursion has converged,
so any further recursion depth computes the same result. -/
theorem C9_terminates (schema : Schema) (fuel : Nat) (t : String) (rel : List String)
    (h : totalFuel schema ≤ fuel) :
    traverse_relationships schema fuel t rel =
      traverse_relationships schema (totalFuel schema) t rel :=
  traverse_stable schema fuel (totalFuel schema) t rel
    (lt_of_lt_of_le (unvisitedCount_lt_totalFuel schema rel) h)
    (unvisitedCount_lt_totalFuel schema rel)

/-- C9, witness: convergence on the cyclic two-table schema. -/
theorem C9_witness :
    totalFuel schemaCyc ≤ 7 ∧
      traverse_relationships schemaCyc 7 "a" ["a"] =
        traverse_relationships schemaCyc (totalFuel schemaCyc) "a" ["a"] :=
  ⟨by decide, C9_terminates schemaCyc 7 "a" ["a"] (by decide)⟩

/-- C10: with an empty relevant set validate_query_columns returns the
empty flagged list for every query and schema — the table loop never runs,
so no identifier is flagged and no lookup can fail. -/
theorem C10_empty_relevant_set (query : String) (schema : Schema) :
    validate_query_columns query schema [] = some [] := rfl

end OracleQwen
